import Mathlib

/-!
Verification of the contact-manager core (`hm_8.py`): validated phone and
birthday fields, contact records, the name-keyed address book, and the
upcoming-birthdays query.  Dates are modelled as proleptic Gregorian
year/month/day triples; Python `try/except ValueError` around date
construction is modelled with `Option`.
-/

namespace HW8

/-! ## Calendar dates (`datetime.date`) -/

/-- A calendar date, as held by the Python type `datetime.date`: year, month, day.
The proleptic Gregorian calendar is modelled unbounded above (the Python
`MAXYEAR = 9999` cap is not modelled; `MINYEAR = 1` is). -/
structure PyDate where
  year : Nat
  month : Nat
  day : Nat
deriving DecidableEq

/-- Gregorian leap-year rule, as used by `datetime`. -/
def isLeap (y : Nat) : Bool :=
  y % 4 == 0 && (y % 100 != 0 || y % 400 == 0)

/-- Number of days in a month of a given year. -/
def daysInMonth (y m : Nat) : Nat :=
  if m == 2 then (if isLeap y then 29 else 28)
  else if m == 4 || m == 6 || m == 9 || m == 11 then 30
  else 31

/-- Days in year `y` strictly before month `m`. -/
def daysBeforeMonth (y : Nat) : Nat → Nat
  | 0 => 0
  | 1 => 0
  | Nat.succ m => daysBeforeMonth y m + daysInMonth y m

/-- Rata-die day number: `toRD ⟨1,1,1⟩ = 1`, counting days of the proleptic
Gregorian calendar.  Differences of `toRD` model `(a - b).days`. -/
def toRD (d : PyDate) : Nat :=
  365 * (d.year - 1) + (d.year - 1) / 4 - (d.year - 1) / 100 + (d.year - 1) / 400
    + daysBeforeMonth d.year d.month + d.day

/-- Python `date.weekday()`: Monday = 0 … Sunday = 6.
(0001-01-01 is a Monday in the proleptic Gregorian calendar.) -/
def weekdayOf (d : PyDate) : Nat := (toRD d + 6) % 7

/-- Python date comparison `a < b` (lexicographic on (year, month, day)). -/
def dateLt (a b : PyDate) : Bool :=
  a.year < b.year ||
    (a.year == b.year &&
      (a.month < b.month || (a.month == b.month && a.day < b.day)))

/-- A structurally valid calendar date (what `datetime.date` can hold,
minus the unmodelled year-9999 cap). -/
def PyDate.Valid (d : PyDate) : Prop :=
  1 ≤ d.year ∧ 1 ≤ d.month ∧ d.month ≤ 12 ∧ 1 ≤ d.day ∧ d.day ≤ daysInMonth d.year d.month

instance (d : PyDate) : Decidable d.Valid := by
  unfold PyDate.Valid; infer_instance

/-- The calendar successor of a date. -/
def nextDay (d : PyDate) : PyDate :=
  if d.day < daysInMonth d.year d.month then ⟨d.year, d.month, d.day + 1⟩
  else if d.month < 12 then ⟨d.year, d.month + 1, 1⟩
  else ⟨d.year + 1, 1, 1⟩

/-- Python `d + timedelta(days = n)`. -/
def addDays (d : PyDate) : Nat → PyDate
  | 0 => d
  | Nat.succ n => nextDay (addDays d n)

/-- The month/day field of Python `d.strftime("%Y.%m.%d")`: zero-padded to two. -/
def pad2 (n : Nat) : String :=
  if n < 10 then "0" ++ toString n else toString n

/-- Python `d.strftime("%Y.%m.%d")` (years of interest all have four digits). -/
def formatYMD (d : PyDate) : String :=
  toString d.year ++ "." ++ pad2 d.month ++ "." ++ pad2 d.day

/-! ## Error kinds (`ValueError` messages at the core boundary) -/

/-- The error taxonomy of the core: which `ValueError` was raised. -/
inductive Err where
  | invalidPhone
  | invalidDateFormat
  | phoneNotFound
deriving DecidableEq

/-! ## Unicode digit tables (Unicode character database, as used by CPython) -/

/-- Range starts of the Unicode general category Nd (decimal digits):
each entry `b` begins a run of ten code points `b .. b+9` whose decimal
values are `0 .. 9`.  These are exactly the characters matched by `\d`
in a Python str regex and accepted by `int()`. -/
def ndStarts : List Nat :=
  [0x30, 0x660, 0x6F0, 0x7C0, 0x966, 0x9E6, 0xA66, 0xAE6, 0xB66, 0xBE6,
   0xC66, 0xCE6, 0xD66, 0xDE6, 0xE50, 0xED0, 0xF20, 0x1040, 0x1090, 0x17E0,
   0x1810, 0x1946, 0x19D0, 0x1A80, 0x1A90, 0x1B50, 0x1BB0, 0x1C40, 0x1C50,
   0xA620, 0xA8D0, 0xA900, 0xA9D0, 0xA9F0, 0xAA50, 0xABF0, 0xFF10, 0x104A0,
   0x10D30, 0x11066, 0x110F0, 0x11136, 0x111D0, 0x112F0, 0x11450, 0x114D0,
   0x11650, 0x116C0, 0x11730, 0x118E0, 0x11950, 0x11C50, 0x11D50, 0x11DA0,
   0x16A60, 0x16AC0, 0x16B50, 0x1D7CE, 0x1D7D8, 0x1D7E2, 0x1D7EC, 0x1D7F6,
   0x1E140, 0x1E2F0, 0x1E950, 0x1FBF0]

/-- Membership in Unicode category Nd: what `\d` matches in a Python
str regex. -/
def isNd (c : Char) : Bool :=
  ndStarts.any (fun b => b ≤ c.toNat && c.toNat < b + 10)

/-- The decimal value of an Nd character (its offset in the run of ten),
as used by `int()`; 0 on non-digits. -/
def ndVal (c : Char) : Nat :=
  match ndStarts.find? (fun b => b ≤ c.toNat && c.toNat < b + 10) with
  | some b => c.toNat - b
  | none => 0

/-- Code-point ranges (inclusive) of the digit-valued characters outside
Nd for which `str.isdigit` also returns true (superscripts, subscripts,
circled digits, and other characters of Unicode numeric type Digit). -/
def digitExtraRanges : List (Nat × Nat) :=
  [(0xB2, 0xB3), (0xB9, 0xB9), (0x1369, 0x1371), (0x19DA, 0x19DA),
   (0x2070, 0x2070), (0x2074, 0x2079), (0x2080, 0x2089), (0x2460, 0x2468),
   (0x2474, 0x247C), (0x2488, 0x2490), (0x24EA, 0x24EA), (0x24F5, 0x24FD),
   (0x24FF, 0x24FF), (0x2776, 0x277E), (0x2780, 0x2788), (0x278A, 0x2792),
   (0x10A40, 0x10A43), (0x10E60, 0x10E68), (0x11052, 0x1105A),
   (0x1F100, 0x1F10A)]

/-- Python `c.isdigit()` for a single character: a Unicode decimal digit
(Nd) or one of the other digit-valued characters. -/
def pyDigitChar (c : Char) : Bool :=
  isNd c || digitExtraRanges.any (fun p => p.1 ≤ c.toNat && c.toNat ≤ p.2)

/-! ## Phone validation (`Phone.__init__`) -/

/-- Python `value.isdigit()`: non-empty and all characters are digit
characters of the Unicode character database (not only ASCII). -/
def pyIsDigit (s : String) : Bool :=
  !s.data.isEmpty && s.data.all pyDigitChar

/-- The guard of `Phone.__init__`: `value.isdigit() and len(value) == 10`. -/
def phoneOK (s : String) : Bool :=
  pyIsDigit s && s.length == 10

/-- Python `Phone(value)`: raises `InvalidPhone` unless `phoneOK`, else stores
the string unchanged. -/
def phoneValidate (s : String) : Except Err String :=
  if phoneOK s then Except.ok s else Except.error Err.invalidPhone

/-! ## Birthday validation (`Birthday.__init__` via `strptime("%d.%m.%Y")`) -/

/-- Numeric value of an ASCII digit character. -/
def digitVal (c : Char) : Nat := c.toNat - 48

/-- The month directive `%m` of `strptime`: the regex
`1[0-2]|0[1-9]|[1-9]` (used with `hi = 12`) — a two-digit value
`01..hi`, or failing that a single digit `1..9`.  This pattern contains
no `\d`, so all its character classes are ASCII ranges.  Returns the
value and the unconsumed characters. -/
def parseDM (hi : Nat) : List Char → Option (Nat × List Char)
  | c1 :: c2 :: rest =>
    if c1.isDigit = true ∧ c2.isDigit = true then
      if 1 ≤ 10 * digitVal c1 + digitVal c2 ∧ 10 * digitVal c1 + digitVal c2 ≤ hi then
        some (10 * digitVal c1 + digitVal c2, rest)
      else if 1 ≤ digitVal c1 then some (digitVal c1, c2 :: rest)
      else none
    else if c1.isDigit = true ∧ 1 ≤ digitVal c1 then some (digitVal c1, c2 :: rest)
    else none
  | [c1] => if c1.isDigit = true ∧ 1 ≤ digitVal c1 then some (digitVal c1, []) else none
  | [] => none

/-- The two-digit alternatives of the day directive `%d`:
`3[01] | [12]\d | 0[1-9]` — the literals and bracket ranges are ASCII,
while the `\d` after a leading `1` or `2` matches any Unicode decimal
digit, whose `int()` value is its decimal value. -/
def dayTwo (c1 c2 : Char) : Option Nat :=
  if c1 = '3' ∧ c2.isDigit = true ∧ digitVal c2 ≤ 1 then some (30 + digitVal c2)
  else if (c1 = '1' ∨ c1 = '2') ∧ isNd c2 = true then
    some (10 * digitVal c1 + ndVal c2)
  else if c1 = '0' ∧ c2.isDigit = true ∧ 1 ≤ digitVal c2 then some (digitVal c2)
  else none

/-- The day directive `%d` of `strptime`: regex
`3[01]|[12]\d|0[1-9]|[1-9]` — a two-digit alternative (`dayTwo`), or
failing that a single ASCII digit `1..9`.  Returns the value and the
unconsumed characters. -/
def parseDay : List Char → Option (Nat × List Char)
  | c1 :: c2 :: rest =>
    match dayTwo c1 c2 with
    | some v => some (v, rest)
    | none =>
      if c1.isDigit = true ∧ 1 ≤ digitVal c1 then some (digitVal c1, c2 :: rest)
      else none
  | [c1] => if c1.isDigit = true ∧ 1 ≤ digitVal c1 then some (digitVal c1, []) else none
  | [] => none

/-- The `%Y` directive of `strptime`: exactly four digits (`\d\d\d\d`),
each any Unicode decimal digit, with the value `int()` computes. -/
def parseY4 : List Char → Option (Nat × List Char)
  | a :: b :: c :: e :: rest =>
    if isNd a = true ∧ isNd b = true ∧ isNd c = true ∧ isNd e = true then
      some (1000 * ndVal a + 100 * ndVal b + 10 * ndVal c + ndVal e, rest)
    else none
  | _ => none

/-- A literal `.` of the format string: consume it or fail. -/
def afterDot : List Char → Option (List Char)
  | c :: r => if c = '.' then some r else none
  | [] => none

/-- Python `datetime.strptime(s, "%d.%m.%Y")`: day field, literal dot, month
field, literal dot, four-digit year, end of input, then the
range check of the `datetime` constructor (`MINYEAR ≤ year`, day fits the
month; month `1..12` and day `≥ 1` are already forced by the regex). -/
def strptimeDMY (s : String) : Option PyDate :=
  match parseDay s.data with
  | none => none
  | some (dv, rest1) =>
    match afterDot rest1 with
    | none => none
    | some r1 =>
      match parseDM 12 r1 with
      | none => none
      | some (mv, rest2) =>
        match afterDot rest2 with
        | none => none
        | some r2 =>
          match parseY4 r2 with
          | none => none
          | some (yv, rest3) =>
            match rest3 with
            | [] => if 1 ≤ yv ∧ dv ≤ daysInMonth yv mv then some ⟨yv, mv, dv⟩ else none
            | _ => none

/-- Python `Birthday(value)`: `strptime` failure raises `InvalidDateFormat`,
success stores the parsed calendar date. -/
def birthdayValidate (s : String) : Except Err PyDate :=
  match strptimeDMY s with
  | some dt => Except.ok dt
  | none => Except.error Err.invalidDateFormat

/-! ## Birthday projection (`get_upcoming_birthdays`, lines 107–131) -/

/-- Python `bd.replace(year = y)`: keeps month and day, fails (raises
`ValueError`, modelled as `none`) when the resulting triple is not a
date — for a valid `bd` that means `y < MINYEAR` or Feb 29 onto a
non-leap year. -/
def replaceYear (bd : PyDate) (y : Nat) : Option PyDate :=
  if 1 ≤ y ∧ bd.day ≤ daysInMonth y bd.month then some ⟨y, bd.month, bd.day⟩
  else none

/-- Lines 108–112: this-year projection with the `except ValueError`
fallback to `date(today.year, 2, 28)`. -/
def bdayThisYear (today bd : PyDate) : PyDate :=
  (replaceYear bd today.year).getD ⟨today.year, 2, 28⟩

/-- Lines 108–118: the projected date; if the this-year projection is
strictly before `today`, re-project onto `today.year + 1` with the same
Feb 28 fallback. -/
def projected (today bd : PyDate) : PyDate :=
  if dateLt (bdayThisYear today bd) today then
    (replaceYear bd (today.year + 1)).getD ⟨today.year + 1, 2, 28⟩
  else bdayThisYear today bd

/-- Lines 120–126: compute `days_ahead = (projected - today).days`; keep the
record only if `0 ≤ days_ahead ≤ 7`, then shift Saturday by +2 days and
Sunday by +1 day.  Returns the final congratulation date, or `none`
when the record is filtered out. -/
def congrat (today bd : PyDate) : Option PyDate :=
  let p := projected today bd
  if 0 ≤ ((toRD p : Int) - (toRD today : Int)) ∧ ((toRD p : Int) - (toRD today : Int)) ≤ 7 then
    if weekdayOf p == 5 then some (addDays p 2)
    else if weekdayOf p == 6 then some (addDays p 1)
    else some p
  else none

/-! ## Contact records (`Record`) -/

/-- A contact record: name (the `.value` of the `Name` field), the list of the
`.value` strings of the phones, and the optional parsed birthday. -/
structure Record where
  name : String
  phones : List String
  birthday : Option PyDate
deriving DecidableEq

/-- Python `Record(name)`. -/
def Record.mkNew (name : String) : Record := ⟨name, [], none⟩

/-- Method `Record.add_phone`: validate, then append; on failure the phone list
is unchanged (the exception propagates). -/
def Record.addPhone (r : Record) (s : String) : Except Err Record :=
  match phoneValidate s with
  | Except.ok v => Except.ok { r with phones := r.phones ++ [v] }
  | Except.error e => Except.error e

/-- Method `Record.remove_phone`: keep the phones whose value differs. -/
def Record.removePhone (r : Record) (s : String) : Record :=
  { r with phones := r.phones.filter (fun p => p != s) }

/-- The loop of `Record.edit_phone` on the phone list: find the first
phone equal to `old`, then validate `n` and overwrite the value of that phone
in place; raise `PhoneNotFound` when the loop finds nothing. -/
def editPhoneList : List String → String → String → Except Err (List String)
  | [], _, _ => Except.error Err.phoneNotFound
  | p :: rest, old, n =>
    if p = old then
      match phoneValidate n with
      | Except.ok v => Except.ok (v :: rest)
      | Except.error e => Except.error e
    else
      match editPhoneList rest old n with
      | Except.ok l => Except.ok (p :: l)
      | Except.error e => Except.error e

/-- Method `Record.edit_phone`. -/
def Record.editPhone (r : Record) (old n : String) : Except Err Record :=
  match editPhoneList r.phones old n with
  | Except.ok l => Except.ok { r with phones := l }
  | Except.error e => Except.error e

/-- The loop of `Record.find_phone`: first phone equal to `s`, else `None`. -/
def findPhoneList : List String → String → Option String
  | [], _ => none
  | p :: rest, s => if p = s then some p else findPhoneList rest s

/-- Method `Record.add_birthday`: validate, then overwrite the stored birthday;
on failure the record is unchanged (the exception propagates). -/
def Record.addBirthday (r : Record) (s : String) : Except Err Record :=
  match birthdayValidate s with
  | Except.ok d => Except.ok { r with birthday := some d }
  | Except.error e => Except.error e

/-! ## The address book (`AddressBook`, a `dict` keyed by name) -/

/-- The field `AddressBook.data`, an insertion-ordered mapping modelled as an
association list (Python dicts preserve insertion order, and assigning
to an existing key keeps its position). -/
abbrev AddressBook := List (String × Record)

/-- Whether the dict has an entry for key `n`. -/
def hasKey (b : AddressBook) (n : String) : Bool :=
  b.any (fun kv => kv.1 == n)

/-- Method `AddressBook.add_record`: `self.data[record.name.value] = record` —
overwrite in place if the key exists, else append. -/
def addRecord (b : AddressBook) (r : Record) : AddressBook :=
  if hasKey b r.name then
    b.map (fun kv => if kv.1 = r.name then (kv.1, r) else kv)
  else b ++ [(r.name, r)]

/-- Method `AddressBook.find`: `self.data.get(name)`. -/
def find (b : AddressBook) (n : String) : Option Record :=
  (b.find? (fun kv => kv.1 == n)).map (fun kv => kv.2)

/-- Method `AddressBook.delete`: `del self.data[name]` if present, else no-op. -/
def delete (b : AddressBook) (n : String) : AddressBook :=
  b.filter (fun kv => kv.1 != n)

/-- The loop of `get_upcoming_birthdays` (lines 103–131): iterate over
the records in insertion order, carrying the untouched book state and
the `upcoming` accumulator; append one `(name, formatted date)` entry
per record that passes the window filter. -/
def gubGo (today : PyDate) (b : AddressBook) :
    List (String × Record) → List (String × String) → List (String × String) × AddressBook
  | [], acc => (acc, b)
  | kv :: rest, acc =>
    match kv.2.birthday with
    | none => gubGo today b rest acc
    | some bd =>
      match congrat today bd with
      | none => gubGo today b rest acc
      | some d => gubGo today b rest (acc ++ [(kv.2.name, formatYMD d)])

/-- Method `AddressBook.get_upcoming_birthdays` in state-passing form: the
result list together with the post-state of `self.data`. -/
def getUpcomingBirthdaysS (today : PyDate) (b : AddressBook) :
    List (String × String) × AddressBook :=
  gubGo today b b []

/-- The value returned by `AddressBook.get_upcoming_birthdays`. -/
def getUpcomingBirthdays (today : PyDate) (b : AddressBook) : List (String × String) :=
  (getUpcomingBirthdaysS today b).1

/-- Method `AddressBook.find` in state-passing form (the method body has no
assignment, so its post-state is its input). -/
def findS (b : AddressBook) (n : String) : Option Record × AddressBook :=
  (find b n, b)

/-- Method `Record.find_phone` in state-passing form. -/
def findPhoneS (r : Record) (s : String) : Option String × Record :=
  (findPhoneList r.phones s, r)

/-- What one loop iteration of `get_upcoming_birthdays` contributes for
one directory entry: the name of the record with the formatted congratulation
date, or nothing when the record has no birthday or falls outside the
window. -/
def entryOf (today : PyDate) (kv : String × Record) : Option (String × String) :=
  match kv.2.birthday with
  | none => none
  | some bd =>
    match congrat today bd with
    | none => none
    | some d => some (kv.2.name, formatYMD d)

/-! ## Reachable book states (for the key-invariant claim) -/

/-- One record mutation, as dispatched by the command layer on the
record aliased from the book. -/
inductive MutStep where
  | mAddPhone (s : String)
  | mRemovePhone (s : String)
  | mEditPhone (old n : String)
  | mAddBirthday (s : String)

/-- The post-state of a record operation that may raise: a raised
`ValueError` leaves the record as it was. -/
def orKeep (e : Except Err Record) (r : Record) : Record :=
  match e with
  | Except.ok x => x
  | Except.error _ => r

/-- Run one mutation on a record. -/
def applyMut : MutStep → Record → Record
  | MutStep.mAddPhone s, r => orKeep (r.addPhone s) r
  | MutStep.mRemovePhone s, r => r.removePhone s
  | MutStep.mEditPhone old n, r => orKeep (r.editPhone old n) r
  | MutStep.mAddBirthday s, r => orKeep (r.addBirthday s) r

/-- Apply a record-updating function to the entry keyed `k`. -/
def updateAt (b : AddressBook) (k : String) (f : Record → Record) : AddressBook :=
  b.map (fun kv => if kv.1 = k then (kv.1, f kv.2) else kv)

/-- Book states reachable from the empty book through the directory
operations and the record mutations. -/
inductive Reachable : AddressBook → Prop where
  | empty : Reachable []
  | addRec (b : AddressBook) (r : Record) : Reachable b → Reachable (addRecord b r)
  | del (b : AddressBook) (n : String) : Reachable b → Reachable (delete b n)
  | mutate (b : AddressBook) (k : String) (m : MutStep) :
      Reachable b → Reachable (updateAt b k (applyMut m))

/-! ## Spec-side format descriptions (for the validation claims) -/

/-- The literal `DD.MM.YYYY` reading of the spec: exactly two digits, dot,
two digits, dot, four digits, denoting a real calendar date. -/
def strictDDMMYYYY (s : String) : Bool :=
  match s.data with
  | [d1, d2, '.', m1, m2, '.', y1, y2, y3, y4] =>
    d1.isDigit && d2.isDigit && m1.isDigit && m2.isDigit &&
      y1.isDigit && y2.isDigit && y3.isDigit && y4.isDigit &&
      (let dv := 10 * digitVal d1 + digitVal d2
       let mv := 10 * digitVal m1 + digitVal m2
       let yv := 1000 * digitVal y1 + 100 * digitVal y2 + 10 * digitVal y3 + digitVal y4
       1 ≤ dv && 1 ≤ mv && mv ≤ 12 && 1 ≤ yv && dv ≤ daysInMonth yv mv)
  | _ => false

/-- A month field as the amended claim describes it: either a single
ASCII digit `1..9`, or two ASCII digits whose value is `1..hi` (leading
zero allowed; used with `hi = 12` — the `%m` regex has no `\d`, so the
month is ASCII-only). -/
def DMField (hi : Nat) (cs : List Char) (v : Nat) : Prop :=
  (∃ c, cs = [c] ∧ c.isDigit = true ∧ v = digitVal c ∧ 1 ≤ v) ∨
  (∃ c1 c2, cs = [c1, c2] ∧ c1.isDigit = true ∧ c2.isDigit = true ∧
    v = 10 * digitVal c1 + digitVal c2 ∧ 1 ≤ v ∧ v ≤ hi)

/-- A day field as the amended claim describes it: a single ASCII digit
`1..9`, or the two-digit forms `30`/`31`, `0` followed by an ASCII
digit `1..9`, or `1`/`2` followed by any Unicode decimal digit (the one
`\d` spot of the day regex), valued as `int()` values it. -/
def DayField (cs : List Char) (v : Nat) : Prop :=
  (∃ c, cs = [c] ∧ c.isDigit = true ∧ 1 ≤ digitVal c ∧ v = digitVal c) ∨
  (∃ c1 c2, cs = [c1, c2] ∧
    ((c1 = '3' ∧ c2.isDigit = true ∧ digitVal c2 ≤ 1 ∧ v = 30 + digitVal c2) ∨
     ((c1 = '1' ∨ c1 = '2') ∧ isNd c2 = true ∧ v = 10 * digitVal c1 + ndVal c2) ∨
     (c1 = '0' ∧ c2.isDigit = true ∧ 1 ≤ digitVal c2 ∧ v = digitVal c2)))

/-- A year field: exactly four Unicode decimal digits, valued as
`int()` values them. -/
def YearField (cs : List Char) (v : Nat) : Prop :=
  ∃ a b c e, cs = [a, b, c, e] ∧ isNd a = true ∧ isNd b = true ∧
    isNd c = true ∧ isNd e = true ∧
    v = 1000 * ndVal a + 100 * ndVal b + 10 * ndVal c + ndVal e

/-- The amended birthday-format claim: day field (1–2 digits, value
1..31, one `\d` spot Unicode), dot, month field (1–2 ASCII digits,
value 1..12), dot, four-digit year (Unicode decimal digits), whole
string consumed, and the triple is a real calendar date with
year ≥ 1. -/
def LenientDMY (s : String) (dt : PyDate) : Prop :=
  ∃ dcs mcs ycs, s.data = dcs ++ '.' :: (mcs ++ '.' :: ycs) ∧
    DayField dcs dt.day ∧ DMField 12 mcs dt.month ∧ YearField ycs dt.year ∧
    1 ≤ dt.year ∧ dt.day ≤ daysInMonth dt.year dt.month

/-! ## Date arithmetic lemmas -/

theorem daysInMonth_ge (y m : Nat) : 28 ≤ daysInMonth y m := by
  unfold daysInMonth
  split
  · split <;> omega
  · split <;> omega

theorem daysBeforeMonth_succ (y m : Nat) (h : 1 ≤ m) :
    daysBeforeMonth y (m + 1) = daysBeforeMonth y m + daysInMonth y m := by
  cases m with
  | zero => omega
  | succ k => rfl

theorem isLeap_iff (y : Nat) :
    isLeap y = true ↔ (y % 4 = 0 ∧ (y % 100 ≠ 0 ∨ y % 400 = 0)) := by
  unfold isLeap
  simp [Bool.and_eq_true, Bool.or_eq_true]

theorem daysBeforeMonth_twelve (y : Nat) :
    daysBeforeMonth y 12 = 334 + (if isLeap y then 1 else 0) := by
  show daysBeforeMonth y (11 + 1) = _
  rw [daysBeforeMonth_succ y 11 (by omega)]
  rw [show (11 : Nat) = 10 + 1 from rfl, daysBeforeMonth_succ y 10 (by omega)]
  rw [show (10 : Nat) = 9 + 1 from rfl, daysBeforeMonth_succ y 9 (by omega)]
  rw [show (9 : Nat) = 8 + 1 from rfl, daysBeforeMonth_succ y 8 (by omega)]
  rw [show (8 : Nat) = 7 + 1 from rfl, daysBeforeMonth_succ y 7 (by omega)]
  rw [show (7 : Nat) = 6 + 1 from rfl, daysBeforeMonth_succ y 6 (by omega)]
  rw [show (6 : Nat) = 5 + 1 from rfl, daysBeforeMonth_succ y 5 (by omega)]
  rw [show (5 : Nat) = 4 + 1 from rfl, daysBeforeMonth_succ y 4 (by omega)]
  rw [show (4 : Nat) = 3 + 1 from rfl, daysBeforeMonth_succ y 3 (by omega)]
  rw [show (3 : Nat) = 2 + 1 from rfl, daysBeforeMonth_succ y 2 (by omega)]
  rw [show (2 : Nat) = 1 + 1 from rfl, daysBeforeMonth_succ y 1 (by omega)]
  show 0 + daysInMonth y 1 + _ + _ + _ + _ + _ + _ + _ + _ + _ + _ = _
  unfold daysInMonth
  norm_num
  split <;> omega

set_option maxHeartbeats 1000000 in
theorem toRD_nextDay (d : PyDate) (h : d.Valid) : toRD (nextDay d) = toRD d + 1 := by
  obtain ⟨hy, hm1, hm12, hd1, hdm⟩ := h
  unfold nextDay
  by_cases hlt : d.day < daysInMonth d.year d.month
  · simp only [hlt, if_true]
    unfold toRD
    dsimp only
    omega
  · simp only [hlt, if_false]
    have hde : d.day = daysInMonth d.year d.month := by omega
    by_cases hm : d.month < 12
    · simp only [hm, if_true]
      unfold toRD
      dsimp only
      rw [daysBeforeMonth_succ d.year d.month hm1]
      omega
    · simp only [hm, if_false]
      have hm' : d.month = 12 := by omega
      unfold toRD
      dsimp only
      have hdim : daysInMonth d.year 12 = 31 := rfl
      have h12 : daysBeforeMonth (d.year + 1) 1 = 0 := rfl
      rw [h12, hm', daysBeforeMonth_twelve, hde, hm', hdim]
      by_cases hL : isLeap d.year = true
      · rw [if_pos hL]
        rw [isLeap_iff] at hL
        omega
      · rw [if_neg hL]
        have hL' : ¬(d.year % 4 = 0 ∧ (d.year % 100 ≠ 0 ∨ d.year % 400 = 0)) := by
          rw [← isLeap_iff]; exact hL
        omega

theorem valid_nextDay (d : PyDate) (h : d.Valid) : (nextDay d).Valid := by
  obtain ⟨hy, hm1, hm12, hd1, hdm⟩ := h
  unfold nextDay
  by_cases hlt : d.day < daysInMonth d.year d.month
  · simp only [hlt, if_true]
    refine ⟨?_, ?_, ?_, ?_, ?_⟩ <;> dsimp only <;> omega
  · simp only [hlt, if_false]
    by_cases hm : d.month < 12
    · simp only [hm, if_true]
      have := daysInMonth_ge d.year (d.month + 1)
      refine ⟨?_, ?_, ?_, ?_, ?_⟩ <;> dsimp only <;> omega
    · simp only [hm, if_false]
      have := daysInMonth_ge (d.year + 1) 1
      refine ⟨?_, ?_, ?_, ?_, ?_⟩ <;> dsimp only <;> omega

theorem addDays_valid (d : PyDate) (h : d.Valid) (n : Nat) : (addDays d n).Valid := by
  induction n with
  | zero => exact h
  | succ k ih => exact valid_nextDay _ ih

theorem toRD_addDays (d : PyDate) (h : d.Valid) (n : Nat) :
    toRD (addDays d n) = toRD d + n := by
  induction n with
  | zero => rfl
  | succ k ih =>
    show toRD (nextDay (addDays d k)) = _
    rw [toRD_nextDay _ (addDays_valid d h k), ih]
    omega

/-! ## Projection lemmas -/

theorem replaceYear_valid (bd : PyDate) (y : Nat) (hb : bd.Valid) (p : PyDate)
    (h : replaceYear bd y = some p) : p.Valid := by
  obtain ⟨hy, hm1, hm12, hd1, hdm⟩ := hb
  unfold replaceYear at h
  split at h
  · rename_i hc
    cases h
    exact ⟨hc.1, hm1, hm12, hd1, hc.2⟩
  · exact absurd h (by simp)

theorem feb28_valid (y : Nat) (hy : 1 ≤ y) : PyDate.Valid ⟨y, 2, 28⟩ :=
  ⟨hy, (by decide : (1 : Nat) ≤ 2), (by decide : (2 : Nat) ≤ 12),
    (by decide : (1 : Nat) ≤ 28), daysInMonth_ge y 2⟩

theorem bdayThisYear_valid (today bd : PyDate) (ht : today.Valid) (hb : bd.Valid) :
    (bdayThisYear today bd).Valid := by
  unfold bdayThisYear
  cases hr : replaceYear bd today.year with
  | none => exact feb28_valid today.year ht.1
  | some p => exact replaceYear_valid bd today.year hb p hr

theorem projected_valid (today bd : PyDate) (ht : today.Valid) (hb : bd.Valid) :
    (projected today bd).Valid := by
  unfold projected
  split
  · cases hr : replaceYear bd (today.year + 1) with
    | none => exact feb28_valid (today.year + 1) (by omega)
    | some p => exact replaceYear_valid bd (today.year + 1) hb p hr
  · exact bdayThisYear_valid today bd ht hb

/-- The congratulation date: valid, a weekday (Mon–Fri), and 0–9 days
after `today`. -/
theorem congrat_bounds (today bd d : PyDate) (ht : today.Valid) (hb : bd.Valid)
    (h : congrat today bd = some d) :
    d.Valid ∧ weekdayOf d < 5 ∧ toRD today ≤ toRD d ∧ toRD d ≤ toRD today + 9 := by
  have hp : (projected today bd).Valid := projected_valid today bd ht hb
  unfold congrat at h
  dsimp only at h
  split at h
  · rename_i hwin
    have hw1 : toRD today ≤ toRD (projected today bd) := by omega
    have hw2 : toRD (projected today bd) ≤ toRD today + 7 := by omega
    by_cases h5 : weekdayOf (projected today bd) == 5
    · rw [if_pos h5] at h
      cases h
      have hv : (addDays (projected today bd) 2).Valid := addDays_valid _ hp 2
      have hrd : toRD (addDays (projected today bd) 2) = toRD (projected today bd) + 2 :=
        toRD_addDays _ hp 2
      have h5' : (toRD (projected today bd) + 6) % 7 = 5 := by
        simpa [weekdayOf] using h5
      refine ⟨hv, ?_, by omega, by omega⟩
      unfold weekdayOf
      omega
    · rw [if_neg h5] at h
      by_cases h6 : weekdayOf (projected today bd) == 6
      · rw [if_pos h6] at h
        cases h
        have hv : (addDays (projected today bd) 1).Valid := addDays_valid _ hp 1
        have hrd : toRD (addDays (projected today bd) 1) = toRD (projected today bd) + 1 :=
          toRD_addDays _ hp 1
        have h6' : (toRD (projected today bd) + 6) % 7 = 6 := by
          simpa [weekdayOf] using h6
        refine ⟨hv, ?_, by omega, by omega⟩
        unfold weekdayOf
        omega
      · rw [if_neg h6] at h
        cases h
        have h5' : (toRD (projected today bd) + 6) % 7 ≠ 5 := by
          simpa [weekdayOf] using h5
        have h6' : (toRD (projected today bd) + 6) % 7 ≠ 6 := by
          simpa [weekdayOf] using h6
        refine ⟨hp, ?_, by omega, by omega⟩
        unfold weekdayOf
        omega
  · exact absurd h (by simp)

/-- Filter-then-shift: a projected date that is a Sunday exactly 7 days
out passes the window filter and is shifted to 8 days out. -/
theorem congrat_sunday_seven (today bd : PyDate) (ht : today.Valid) (hb : bd.Valid)
    (hw : weekdayOf (projected today bd) = 6)
    (hd : toRD (projected today bd) = toRD today + 7) :
    congrat today bd = some (addDays (projected today bd) 1) ∧
      toRD (addDays (projected today bd) 1) = toRD today + 8 := by
  have hp : (projected today bd).Valid := projected_valid today bd ht hb
  constructor
  · unfold congrat
    dsimp only
    rw [if_pos (by omega)]
    rw [if_neg (by simp [hw]), if_pos (by simp [hw])]
  · rw [toRD_addDays _ hp 1]
    omega

/-! ## Loop characterization of `get_upcoming_birthdays` -/

theorem gubGo_eq (today : PyDate) (b : AddressBook) (l : List (String × Record))
    (acc : List (String × String)) :
    gubGo today b l acc = (acc ++ l.filterMap (entryOf today), b) := by
  induction l generalizing acc with
  | nil => simp [gubGo]
  | cons kv rest ih =>
    unfold gubGo
    rw [List.filterMap_cons]
    cases hbd : kv.2.birthday with
    | none =>
      have he : entryOf today kv = none := by simp [entryOf, hbd]
      simp only [hbd, he]
      exact ih acc
    | some bd =>
      cases hc : congrat today bd with
      | none =>
        have he : entryOf today kv = none := by simp [entryOf, hbd, hc]
        simp only [hbd, hc, he]
        exact ih acc
      | some d =>
        have he : entryOf today kv = some (kv.2.name, formatYMD d) := by
          simp [entryOf, hbd, hc]
        simp only [hbd, hc, he]
        rw [ih]
        simp

theorem getUpcomingBirthdays_eq (today : PyDate) (b : AddressBook) :
    getUpcomingBirthdays today b = b.filterMap (entryOf today) := by
  unfold getUpcomingBirthdays getUpcomingBirthdaysS
  rw [gubGo_eq]
  simp

theorem entryOf_name (today : PyDate) (kv : String × Record) (e : String × String)
    (h : entryOf today kv = some e) : e.1 = kv.2.name := by
  unfold entryOf at h
  split at h
  · exact absurd h (by simp)
  · split at h
    · exact absurd h (by simp)
    · cases h; rfl

/-! ## `edit_phone` loop lemmas -/

theorem editPhoneList_notFound (old n : String) (phones : List String)
    (h : ∀ p ∈ phones, p ≠ old) :
    editPhoneList phones old n = Except.error Err.phoneNotFound := by
  induction phones with
  | nil => rfl
  | cons p rest ih =>
    have hp : p ≠ old := h p (List.mem_cons_self p rest)
    unfold editPhoneList
    rw [if_neg hp, ih (fun q hq => h q (List.mem_cons_of_mem p hq))]

theorem editPhoneList_invalid (old n : String) (phones : List String)
    (h : old ∈ phones) (hn : phoneOK n = false) :
    editPhoneList phones old n = Except.error Err.invalidPhone := by
  induction phones with
  | nil => cases h
  | cons p rest ih =>
    unfold editPhoneList
    by_cases hp : p = old
    · rw [if_pos hp]
      simp [phoneValidate, hn]
    · rw [if_neg hp]
      have hr : old ∈ rest := by
        cases List.mem_cons.mp h with
        | inl he => exact absurd he.symm hp
        | inr hm => exact hm
      rw [ih hr]

theorem editPhoneList_found (old n : String) (phones : List String)
    (h : old ∈ phones) (hn : phoneOK n = true) :
    ∃ l1 l2, phones = l1 ++ old :: l2 ∧ old ∉ l1 ∧
      editPhoneList phones old n = Except.ok (l1 ++ n :: l2) := by
  induction phones with
  | nil => cases h
  | cons p rest ih =>
    by_cases hp : p = old
    · refine ⟨[], rest, by rw [hp]; rfl, by simp, ?_⟩
      unfold editPhoneList
      rw [if_pos hp]
      simp [phoneValidate, hn]
    · have hr : old ∈ rest := by
        cases List.mem_cons.mp h with
        | inl he => exact absurd he.symm hp
        | inr hm => exact hm
      obtain ⟨l1, l2, hdec, hnm, heq⟩ := ih hr
      refine ⟨p :: l1, l2, by rw [hdec]; rfl, ?_, ?_⟩
      · intro hmem
        cases List.mem_cons.mp hmem with
        | inl he => exact hp he.symm
        | inr hm => exact hnm hm
      · unfold editPhoneList
        rw [if_neg hp, heq]
        rfl

/-! ## Directory (`dict`) lemmas -/

theorem find_map_replace (k : String) (r : Record) (b : AddressBook) (hk : hasKey b k = true) :
    find (b.map (fun kv => if kv.1 = k then (kv.1, r) else kv)) k = some r := by
  induction b with
  | nil => cases hk
  | cons kv rest ih =>
    by_cases h1 : kv.1 = k
    · simp [find, List.find?, if_pos h1, h1]
    · have hr : hasKey rest k = true := by
        have := hk
        unfold hasKey at this
        simp [List.any_cons, h1] at this
        unfold hasKey
        simpa using this
      simp only [List.map_cons, if_neg h1]
      unfold find at ih ⊢
      rw [List.find?_cons_of_neg _ (by simpa using h1)]
      exact ih hr

theorem find_append_new (k : String) (r : Record) (b : AddressBook) (hk : hasKey b k = false) :
    find (b ++ [(k, r)]) k = some r := by
  induction b with
  | nil => simp [find, List.find?]
  | cons kv rest ih =>
    have h1 : ¬(kv.1 = k) := by
      intro he
      unfold hasKey at hk
      simp [List.any_cons, he] at hk
    have hr : hasKey rest k = false := by
      unfold hasKey at hk ⊢
      simp [List.any_cons] at hk
      simpa using hk.2
    unfold find at ih ⊢
    rw [List.cons_append, List.find?_cons_of_neg _ (by simpa using h1)]
    exact ih hr

theorem find_addRecord (b : AddressBook) (r : Record) :
    find (addRecord b r) r.name = some r := by
  unfold addRecord
  by_cases hk : hasKey b r.name
  · rw [if_pos hk]
    exact find_map_replace r.name r b hk
  · rw [if_neg hk]
    exact find_append_new r.name r b (by simpa using hk)

theorem find_delete (b : AddressBook) (n : String) : find (delete b n) n = none := by
  induction b with
  | nil => rfl
  | cons kv rest ih =>
    unfold delete at ih ⊢
    by_cases h1 : kv.1 = n
    · rw [List.filter_cons_of_neg (by simpa using h1)]
      exact ih
    · rw [List.filter_cons_of_pos (by simpa using h1)]
      unfold find at ih ⊢
      rw [List.find?_cons_of_neg _ (by simpa using h1)]
      exact ih

theorem delete_absent (b : AddressBook) (n : String) (h : hasKey b n = false) :
    delete b n = b := by
  induction b with
  | nil => rfl
  | cons kv rest ih =>
    have h1 : ¬(kv.1 = n) := by
      intro he
      unfold hasKey at h
      simp [List.any_cons, he] at h
    have hr : hasKey rest n = false := by
      unfold hasKey at h ⊢
      simp [List.any_cons] at h
      simpa using h.2
    unfold delete at ih ⊢
    rw [List.filter_cons_of_pos (by simpa using h1), ih hr]

/-! ## Feb 29 projection lemmas -/

theorem daysInMonth_feb (y : Nat) : daysInMonth y 2 = if isLeap y then 29 else 28 := rfl

theorem replaceYear_feb29 (bd : PyDate) (y : Nat) (h2 : bd.month = 2) (h9 : bd.day = 29) :
    replaceYear bd y = if 1 ≤ y ∧ isLeap y = true then some ⟨y, 2, 29⟩ else none := by
  unfold replaceYear
  rw [h2, h9, daysInMonth_feb]
  by_cases hL : isLeap y = true
  · simp [hL]
  · have hL' : isLeap y = false := by simpa using hL
    simp [hL']

theorem projected_feb29_cases (today bd : PyDate) (h2 : bd.month = 2) (h9 : bd.day = 29) :
    projected today bd = ⟨today.year, 2, 28⟩ ∨
      (projected today bd = ⟨today.year, 2, 29⟩ ∧ isLeap today.year = true) ∨
      projected today bd = ⟨today.year + 1, 2, 28⟩ ∨
      (projected today bd = ⟨today.year + 1, 2, 29⟩ ∧ isLeap (today.year + 1) = true) := by
  unfold projected bdayThisYear
  rw [replaceYear_feb29 bd today.year h2 h9, replaceYear_feb29 bd (today.year + 1) h2 h9]
  by_cases hc1 : 1 ≤ today.year ∧ isLeap today.year = true
  · rw [if_pos hc1]
    by_cases hlt : dateLt (Option.getD (some ⟨today.year, 2, 29⟩) ⟨today.year, 2, 28⟩) today
    · rw [if_pos hlt]
      by_cases hc2 : 1 ≤ today.year + 1 ∧ isLeap (today.year + 1) = true
      · rw [if_pos hc2]
        exact Or.inr (Or.inr (Or.inr ⟨rfl, hc2.2⟩))
      · rw [if_neg hc2]
        exact Or.inr (Or.inr (Or.inl rfl))
    · rw [if_neg hlt]
      exact Or.inr (Or.inl ⟨rfl, hc1.2⟩)
  · rw [if_neg hc1]
    by_cases hlt : dateLt (Option.getD none ⟨today.year, 2, 28⟩) today
    · rw [if_pos hlt]
      by_cases hc2 : 1 ≤ today.year + 1 ∧ isLeap (today.year + 1) = true
      · rw [if_pos hc2]
        exact Or.inr (Or.inr (Or.inr ⟨rfl, hc2.2⟩))
      · rw [if_neg hc2]
        exact Or.inr (Or.inr (Or.inl rfl))
    · rw [if_neg hlt]
      exact Or.inl rfl

theorem congrat_shift_cases (today bd d : PyDate) (h : congrat today bd = some d) :
    d = projected today bd ∨ d = addDays (projected today bd) 1 ∨
      d = addDays (projected today bd) 2 := by
  unfold congrat at h
  dsimp only at h
  split at h
  · split at h
    · cases h
      exact Or.inr (Or.inr rfl)
    · split at h
      · cases h
        exact Or.inr (Or.inl rfl)
      · cases h
        exact Or.inl rfl
  · exact absurd h (by simp)

theorem nextDay_feb28 (y : Nat) :
    nextDay ⟨y, 2, 28⟩ = if isLeap y then ⟨y, 2, 29⟩ else ⟨y, 3, 1⟩ := by
  unfold nextDay
  rw [show PyDate.day ⟨y, 2, 28⟩ = 28 from rfl, show PyDate.month ⟨y, 2, 28⟩ = 2 from rfl,
    show PyDate.year ⟨y, 2, 28⟩ = y from rfl, daysInMonth_feb]
  by_cases hL : isLeap y = true
  · simp [hL]
  · simp [Bool.not_eq_true] at hL
    simp [hL]

theorem nextDay_feb29 (y : Nat) : nextDay ⟨y, 2, 29⟩ = ⟨y, 3, 1⟩ := by
  unfold nextDay
  rw [show PyDate.day ⟨y, 2, 29⟩ = 29 from rfl, show PyDate.month ⟨y, 2, 29⟩ = 2 from rfl,
    show PyDate.year ⟨y, 2, 29⟩ = y from rfl, daysInMonth_feb]
  by_cases hL : isLeap y = true
  · simp [hL]
  · simp [Bool.not_eq_true] at hL
    simp [hL]

theorem nextDay_mar1 (y : Nat) : nextDay ⟨y, 3, 1⟩ = ⟨y, 3, 2⟩ := rfl

/-- Shapes reachable from a Feb 28 projection by the weekend shift:
only the leap-year Feb 29 among them has month 2 and day 29. -/
theorem feb28_shift_leap (y : Nat) (d : PyDate)
    (hc : d = ⟨y, 2, 28⟩ ∨ d = addDays ⟨y, 2, 28⟩ 1 ∨ d = addDays ⟨y, 2, 28⟩ 2)
    (hm : d.month = 2) (hd : d.day = 29) : isLeap d.year = true := by
  rcases hc with hc | hc | hc
  · rw [hc] at hd
    simp at hd
  · rw [show addDays (⟨y, 2, 28⟩ : PyDate) 1 = nextDay ⟨y, 2, 28⟩ from rfl,
      nextDay_feb28] at hc
    by_cases hL : isLeap y = true
    · rw [if_pos hL] at hc
      rw [hc]
      exact hL
    · rw [if_neg hL] at hc
      rw [hc] at hm
      simp at hm
  · rw [show addDays (⟨y, 2, 28⟩ : PyDate) 2 = nextDay (nextDay ⟨y, 2, 28⟩) from rfl,
      nextDay_feb28] at hc
    by_cases hL : isLeap y = true
    · rw [if_pos hL, nextDay_feb29] at hc
      rw [hc] at hm
      simp at hm
    · rw [if_neg hL, nextDay_mar1] at hc
      rw [hc] at hm
      simp at hm

/-- Shapes reachable from a leap-year Feb 29 projection by the weekend
shift: the only one with month 2 and day 29 is ⟨y, 2, 29⟩ itself. -/
theorem feb29_shift_leap (y : Nat) (d : PyDate) (hL : isLeap y = true)
    (hc : d = ⟨y, 2, 29⟩ ∨ d = addDays ⟨y, 2, 29⟩ 1 ∨ d = addDays ⟨y, 2, 29⟩ 2)
    (hm : d.month = 2) (hd : d.day = 29) : isLeap d.year = true := by
  rcases hc with hc | hc | hc
  · rw [hc]
    exact hL
  · rw [show addDays (⟨y, 2, 29⟩ : PyDate) 1 = nextDay ⟨y, 2, 29⟩ from rfl,
      nextDay_feb29] at hc
    rw [hc] at hm
    simp at hm
  · rw [show addDays (⟨y, 2, 29⟩ : PyDate) 2 = nextDay (nextDay ⟨y, 2, 29⟩) from rfl,
      nextDay_feb29, nextDay_mar1] at hc
    rw [hc] at hm
    simp at hm

/-- Any congratulation date that is a Feb 29 has a leap year. -/
theorem congrat_feb29_leap (today bd d : PyDate) (h2 : bd.month = 2) (h9 : bd.day = 29)
    (h : congrat today bd = some d) (hm : d.month = 2) (hd : d.day = 29) :
    isLeap d.year = true := by
  have hcase := congrat_shift_cases today bd d h
  have hproj := projected_feb29_cases today bd h2 h9
  rcases hproj with hp | ⟨hp, hL⟩ | hp | ⟨hp, hL⟩
  · rw [hp] at hcase
    exact feb28_shift_leap today.year d hcase hm hd
  · rw [hp] at hcase
    exact feb29_shift_leap today.year d hL hcase hm hd
  · rw [hp] at hcase
    exact feb28_shift_leap (today.year + 1) d hcase hm hd
  · rw [hp] at hcase
    exact feb29_shift_leap (today.year + 1) d hL hcase hm hd

/-! ## `strptime` parser characterization -/

theorem afterDot_eq (cs : List Char) (r : List Char) :
    afterDot cs = some r ↔ cs = '.' :: r := by
  cases cs with
  | nil => simp [afterDot]
  | cons c t =>
    unfold afterDot
    by_cases hc : c = '.'
    · simp [hc]
    · simp [hc]

theorem parseDM_two (hi : Nat) (c1 c2 : Char) (rest : List Char)
    (h1 : c1.isDigit = true) (h2 : c2.isDigit = true)
    (hv1 : 1 ≤ 10 * digitVal c1 + digitVal c2)
    (hv2 : 10 * digitVal c1 + digitVal c2 ≤ hi) :
    parseDM hi (c1 :: c2 :: rest) = some (10 * digitVal c1 + digitVal c2, rest) := by
  simp only [parseDM]
  rw [if_pos ⟨h1, h2⟩, if_pos ⟨hv1, hv2⟩]

theorem parseDM_one (hi : Nat) (c1 c2 : Char) (rest : List Char)
    (h1 : c1.isDigit = true) (hge : 1 ≤ digitVal c1) (h2 : c2.isDigit = false) :
    parseDM hi (c1 :: c2 :: rest) = some (digitVal c1, c2 :: rest) := by
  simp only [parseDM]
  rw [if_neg (by simp [h2]), if_pos ⟨h1, hge⟩]

theorem parseDM_inv (hi : Nat) (cs : List Char) (v : Nat) (rest : List Char)
    (h : parseDM hi cs = some (v, rest))
    (hrest : ∀ c2 r2, rest = c2 :: r2 → c2.isDigit = false) :
    (∃ c1 c2, cs = c1 :: c2 :: rest ∧ c1.isDigit = true ∧ c2.isDigit = true ∧
      v = 10 * digitVal c1 + digitVal c2 ∧ 1 ≤ v ∧ v ≤ hi) ∨
    (∃ c1, cs = c1 :: rest ∧ c1.isDigit = true ∧ v = digitVal c1 ∧ 1 ≤ v) := by
  cases cs with
  | nil => simp [parseDM] at h
  | cons c1 t =>
    cases t with
    | nil =>
      simp only [parseDM] at h
      split at h
      · rename_i hc
        simp only [Option.some.injEq, Prod.mk.injEq] at h
        exact Or.inr ⟨c1, by rw [← h.2], hc.1, h.1.symm, by have := hc.2; omega⟩
      · simp at h
    | cons c2 t2 =>
      simp only [parseDM] at h
      split at h
      · rename_i hdig
        split at h
        · rename_i hrange
          simp only [Option.some.injEq, Prod.mk.injEq] at h
          exact Or.inl ⟨c1, c2, by rw [← h.2], hdig.1, hdig.2, h.1.symm,
            by have := hrange.1; omega, by have := hrange.2; omega⟩
        · split at h
          · simp only [Option.some.injEq, Prod.mk.injEq] at h
            exact absurd hdig.2 (by rw [hrest c2 t2 h.2.symm]; simp)
          · simp at h
      · split at h
        · rename_i hone
          simp only [Option.some.injEq, Prod.mk.injEq] at h
          exact Or.inr ⟨c1, by rw [← h.2], hone.1, h.1.symm, by have := hone.2; omega⟩
        · simp at h

theorem dayTwo_some_iff (c1 c2 : Char) (v : Nat) :
    dayTwo c1 c2 = some v ↔
      ((c1 = '3' ∧ c2.isDigit = true ∧ digitVal c2 ≤ 1 ∧ v = 30 + digitVal c2) ∨
       ((c1 = '1' ∨ c1 = '2') ∧ isNd c2 = true ∧ v = 10 * digitVal c1 + ndVal c2) ∨
       (c1 = '0' ∧ c2.isDigit = true ∧ 1 ≤ digitVal c2 ∧ v = digitVal c2)) := by
  unfold dayTwo
  constructor
  · intro h
    split at h
    · rename_i h1
      simp only [Option.some.injEq] at h
      exact Or.inl ⟨h1.1, h1.2.1, h1.2.2, h.symm⟩
    · split at h
      · rename_i h1 h2
        simp only [Option.some.injEq] at h
        exact Or.inr (Or.inl ⟨h2.1, h2.2, h.symm⟩)
      · split at h
        · rename_i h1 h2 h3
          simp only [Option.some.injEq] at h
          exact Or.inr (Or.inr ⟨h3.1, h3.2.1, h3.2.2, h.symm⟩)
        · exact absurd h (by simp)
  · intro h
    rcases h with ⟨e3, hd2, hle, hv⟩ | ⟨hor, hnd, hv⟩ | ⟨e0, hd2, hge, hv⟩
    · rw [if_pos ⟨e3, hd2, hle⟩, hv]
    · have hA : ¬(c1 = '3' ∧ c2.isDigit = true ∧ digitVal c2 ≤ 1) := by
        intro hc
        rcases hor with h1 | h1 <;> rw [h1] at hc <;> exact absurd hc.1 (by decide)
      rw [if_neg hA, if_pos ⟨hor, hnd⟩, hv]
    · have hA : ¬(c1 = '3' ∧ c2.isDigit = true ∧ digitVal c2 ≤ 1) := by
        intro hc
        rw [e0] at hc
        exact absurd hc.1 (by decide)
      have hB : ¬((c1 = '1' ∨ c1 = '2') ∧ isNd c2 = true) := by
        intro hc
        rcases hc.1 with h1 | h1 <;> rw [e0] at h1 <;> exact absurd h1 (by decide)
      rw [if_neg hA, if_neg hB, if_pos ⟨e0, hd2, hge⟩, hv]

theorem dayTwo_dot (c1 : Char) : dayTwo c1 '.' = none := by
  unfold dayTwo
  rw [if_neg (fun hc => absurd hc.2.1 (by decide)),
    if_neg (fun hc => absurd hc.2 (by decide)),
    if_neg (fun hc => absurd hc.2.1 (by decide))]

theorem parseDay_two (c1 c2 : Char) (rest : List Char) (v : Nat)
    (h : dayTwo c1 c2 = some v) :
    parseDay (c1 :: c2 :: rest) = some (v, rest) := by
  simp only [parseDay, h]

theorem parseDay_one (c1 c2 : Char) (rest : List Char)
    (h : dayTwo c1 c2 = none) (h1 : c1.isDigit = true) (hge : 1 ≤ digitVal c1) :
    parseDay (c1 :: c2 :: rest) = some (digitVal c1, c2 :: rest) := by
  simp only [parseDay, h]
  rw [if_pos ⟨h1, hge⟩]

theorem parseDay_inv (cs : List Char) (v : Nat) (rest : List Char)
    (h : parseDay cs = some (v, rest)) :
    (∃ c1 c2, cs = c1 :: c2 :: rest ∧ dayTwo c1 c2 = some v) ∨
    (∃ c1, cs = c1 :: rest ∧ c1.isDigit = true ∧ 1 ≤ digitVal c1 ∧ v = digitVal c1) := by
  cases cs with
  | nil => simp [parseDay] at h
  | cons c1 t =>
    cases t with
    | nil =>
      simp only [parseDay] at h
      split at h
      · rename_i hc
        simp only [Option.some.injEq, Prod.mk.injEq] at h
        exact Or.inr ⟨c1, by rw [← h.2], hc.1, hc.2, h.1.symm⟩
      · simp at h
    | cons c2 t2 =>
      simp only [parseDay] at h
      cases hdt : dayTwo c1 c2 with
      | some v0 =>
        rw [hdt] at h
        dsimp only at h
        simp only [Option.some.injEq, Prod.mk.injEq] at h
        exact Or.inl ⟨c1, c2, by rw [← h.2], by rw [hdt, h.1]⟩
      | none =>
        rw [hdt] at h
        dsimp only at h
        split at h
        · rename_i hc
          simp only [Option.some.injEq, Prod.mk.injEq] at h
          exact Or.inr ⟨c1, by rw [← h.2], hc.1, hc.2, h.1.symm⟩
        · simp at h

theorem parseY4_compute (a b c e : Char) (rest : List Char)
    (ha : isNd a = true) (hb : isNd b = true) (hc : isNd c = true)
    (he : isNd e = true) :
    parseY4 (a :: b :: c :: e :: rest) =
      some (1000 * ndVal a + 100 * ndVal b + 10 * ndVal c + ndVal e, rest) := by
  simp only [parseY4]
  rw [if_pos ⟨ha, hb, hc, he⟩]

theorem parseY4_inv (cs : List Char) (v : Nat) (rest : List Char)
    (h : parseY4 cs = some (v, rest)) :
    ∃ a b c e, cs = a :: b :: c :: e :: rest ∧ isNd a = true ∧ isNd b = true ∧
      isNd c = true ∧ isNd e = true ∧
      v = 1000 * ndVal a + 100 * ndVal b + 10 * ndVal c + ndVal e := by
  cases cs with
  | nil => simp [parseY4] at h
  | cons a t1 =>
    cases t1 with
    | nil => simp [parseY4] at h
    | cons b t2 =>
      cases t2 with
      | nil => simp [parseY4] at h
      | cons c t3 =>
        cases t3 with
        | nil => simp [parseY4] at h
        | cons e t4 =>
          simp only [parseY4] at h
          split at h
          · rename_i hdg
            simp only [Option.some.injEq, Prod.mk.injEq] at h
            exact ⟨a, b, c, e, by rw [← h.2], hdg.1, hdg.2.1, hdg.2.2.1, hdg.2.2.2, h.1.symm⟩
          · simp at h

theorem afterDot_dot (r : List Char) : afterDot ('.' :: r) = some r := by
  simp [afterDot]

/-- The operational `strptime` parser accepts exactly the strings in the
lenient day.month.year format (1–2 digit day and month, 4-digit year,
Unicode decimal digits at the `\\d` spots), and produces the date the
format denotes. -/
theorem strptimeDMY_iff (s : String) (dt : PyDate) :
    strptimeDMY s = some dt ↔ LenientDMY s dt := by
  constructor
  · intro h
    unfold strptimeDMY at h
    cases hd : parseDay s.data with
    | none => rw [hd] at h; dsimp only at h; exact absurd h (by simp)
    | some pr1 =>
      obtain ⟨dv, rest1⟩ := pr1
      rw [hd] at h
      dsimp only at h
      cases ha1 : afterDot rest1 with
      | none => rw [ha1] at h; dsimp only at h; exact absurd h (by simp)
      | some r1 =>
        rw [ha1] at h
        dsimp only at h
        cases hm : parseDM 12 r1 with
        | none => rw [hm] at h; dsimp only at h; exact absurd h (by simp)
        | some pr2 =>
          obtain ⟨mv, rest2⟩ := pr2
          rw [hm] at h
          dsimp only at h
          cases ha2 : afterDot rest2 with
          | none => rw [ha2] at h; dsimp only at h; exact absurd h (by simp)
          | some r2 =>
            rw [ha2] at h
            dsimp only at h
            cases hy : parseY4 r2 with
            | none => rw [hy] at h; dsimp only at h; exact absurd h (by simp)
            | some pr3 =>
              obtain ⟨yv, rest3⟩ := pr3
              rw [hy] at h
              dsimp only at h
              cases rest3 with
              | cons c0 t0 => dsimp only at h; exact absurd h (by simp)
              | nil =>
                dsimp only at h
                split at h
                · rename_i hcond
                  simp only [Option.some.injEq] at h
                  subst h
                  have hr1 : rest1 = '.' :: r1 := (afterDot_eq rest1 r1).mp ha1
                  have hr2 : rest2 = '.' :: r2 := (afterDot_eq rest2 r2).mp ha2
                  have hmind := parseDM_inv 12 r1 mv rest2 hm (by
                    intro cx rx hcr
                    rw [hr2] at hcr
                    injection hcr with h1 h2
                    rw [← h1]
                    decide)
                  obtain ⟨a, b, c, e, hy4, hda, hdb, hdc, hde, hyv⟩ :=
                    parseY4_inv r2 yv [] hy
                  rcases parseDay_inv s.data dv rest1 hd with
                    ⟨c1, c2, hseq, hdt⟩ | ⟨c1, hseq, hc1, hge1, hdv⟩
                  · rcases hmind with ⟨m1, m2, hmeq, hm1, hm2, hmv, hmv1, hmv12⟩ |
                      ⟨m1, hmeq, hm1, hmv, hmv1⟩
                    · refine ⟨[c1, c2], [m1, m2], [a, b, c, e], ?_, ?_, ?_, ?_, ?_, ?_⟩
                      · rw [hseq, hr1, hmeq, hr2, hy4]
                        simp
                      · exact Or.inr ⟨c1, c2, rfl, (dayTwo_some_iff c1 c2 _).mp hdt⟩
                      · exact Or.inr ⟨m1, m2, rfl, hm1, hm2, hmv, hmv1, hmv12⟩
                      · exact ⟨a, b, c, e, rfl, hda, hdb, hdc, hde, hyv⟩
                      · exact hcond.1
                      · exact hcond.2
                    · refine ⟨[c1, c2], [m1], [a, b, c, e], ?_, ?_, ?_, ?_, ?_, ?_⟩
                      · rw [hseq, hr1, hmeq, hr2, hy4]
                        simp
                      · exact Or.inr ⟨c1, c2, rfl, (dayTwo_some_iff c1 c2 _).mp hdt⟩
                      · exact Or.inl ⟨m1, rfl, hm1, hmv, hmv1⟩
                      · exact ⟨a, b, c, e, rfl, hda, hdb, hdc, hde, hyv⟩
                      · exact hcond.1
                      · exact hcond.2
                  · rcases hmind with ⟨m1, m2, hmeq, hm1, hm2, hmv, hmv1, hmv12⟩ |
                      ⟨m1, hmeq, hm1, hmv, hmv1⟩
                    · refine ⟨[c1], [m1, m2], [a, b, c, e], ?_, ?_, ?_, ?_, ?_, ?_⟩
                      · rw [hseq, hr1, hmeq, hr2, hy4]
                        simp
                      · exact Or.inl ⟨c1, rfl, hc1, hge1, hdv⟩
                      · exact Or.inr ⟨m1, m2, rfl, hm1, hm2, hmv, hmv1, hmv12⟩
                      · exact ⟨a, b, c, e, rfl, hda, hdb, hdc, hde, hyv⟩
                      · exact hcond.1
                      · exact hcond.2
                    · refine ⟨[c1], [m1], [a, b, c, e], ?_, ?_, ?_, ?_, ?_, ?_⟩
                      · rw [hseq, hr1, hmeq, hr2, hy4]
                        simp
                      · exact Or.inl ⟨c1, rfl, hc1, hge1, hdv⟩
                      · exact Or.inl ⟨m1, rfl, hm1, hmv, hmv1⟩
                      · exact ⟨a, b, c, e, rfl, hda, hdb, hdc, hde, hyv⟩
                      · exact hcond.1
                      · exact hcond.2
                · exact absurd h (by simp)
  · intro hL
    obtain ⟨dcs, mcs, ycs, hs, hdf, hmf, hyf, hy1, hdm⟩ := hL
    obtain ⟨a, b, c, e, hyeq, hda, hdb, hdc, hde, hyv⟩ := hyf
    subst hyeq
    unfold strptimeDMY
    rcases hdf with ⟨c1, hdeq, hc1, hge1, hdv⟩ | ⟨c1, c2, hdeq, halts⟩
    · subst hdeq
      rcases hmf with ⟨m1, hmeq, hm1, hmv, hmv1⟩ | ⟨m1, m2, hmeq, hm1, hm2, hmv, hmv1, hmv12⟩
      · subst hmeq
        rw [hs]
        simp only [List.cons_append, List.nil_append]
        rw [parseDay_one c1 '.' (m1 :: '.' :: a :: b :: c :: e :: [])
          (dayTwo_dot c1) hc1 hge1]
        dsimp only
        rw [afterDot_dot]
        dsimp only
        rw [parseDM_one 12 m1 '.' (a :: b :: c :: e :: []) hm1 (by omega) (by decide)]
        dsimp only
        rw [afterDot_dot]
        dsimp only
        rw [parseY4_compute a b c e [] hda hdb hdc hde]
        dsimp only
        rw [hdv, hmv, hyv] at hdm
        rw [hyv] at hy1
        rw [if_pos ⟨hy1, hdm⟩]
        rw [← hyv, ← hmv, ← hdv]
      · subst hmeq
        rw [hs]
        simp only [List.cons_append, List.nil_append]
        rw [parseDay_one c1 '.' (m1 :: m2 :: '.' :: a :: b :: c :: e :: [])
          (dayTwo_dot c1) hc1 hge1]
        dsimp only
        rw [afterDot_dot]
        dsimp only
        rw [parseDM_two 12 m1 m2 ('.' :: a :: b :: c :: e :: []) hm1 hm2
          (by omega) (by omega)]
        dsimp only
        rw [afterDot_dot]
        dsimp only
        rw [parseY4_compute a b c e [] hda hdb hdc hde]
        dsimp only
        rw [hdv, hmv, hyv] at hdm
        rw [hyv] at hy1
        rw [if_pos ⟨hy1, hdm⟩]
        rw [← hyv, ← hmv, ← hdv]
    · subst hdeq
      have hdt : dayTwo c1 c2 = some dt.day := (dayTwo_some_iff c1 c2 dt.day).mpr halts
      rcases hmf with ⟨m1, hmeq, hm1, hmv, hmv1⟩ | ⟨m1, m2, hmeq, hm1, hm2, hmv, hmv1, hmv12⟩
      · subst hmeq
        rw [hs]
        simp only [List.cons_append, List.nil_append]
        rw [parseDay_two c1 c2 ('.' :: m1 :: '.' :: a :: b :: c :: e :: []) dt.day hdt]
        dsimp only
        rw [afterDot_dot]
        dsimp only
        rw [parseDM_one 12 m1 '.' (a :: b :: c :: e :: []) hm1 (by omega) (by decide)]
        dsimp only
        rw [afterDot_dot]
        dsimp only
        rw [parseY4_compute a b c e [] hda hdb hdc hde]
        dsimp only
        rw [hmv, hyv] at hdm
        rw [hyv] at hy1
        rw [if_pos ⟨hy1, hdm⟩]
        rw [← hyv, ← hmv]
      · subst hmeq
        rw [hs]
        simp only [List.cons_append, List.nil_append]
        rw [parseDay_two c1 c2 ('.' :: m1 :: m2 :: '.' :: a :: b :: c :: e :: []) dt.day hdt]
        dsimp only
        rw [afterDot_dot]
        dsimp only
        rw [parseDM_two 12 m1 m2 ('.' :: a :: b :: c :: e :: []) hm1 hm2
          (by omega) (by omega)]
        dsimp only
        rw [afterDot_dot]
        dsimp only
        rw [parseY4_compute a b c e [] hda hdb hdc hde]
        dsimp only
        rw [hmv, hyv] at hdm
        rw [hyv] at hy1
        rw [if_pos ⟨hy1, hdm⟩]
        rw [← hyv, ← hmv]

/-! ## Record-level lemmas -/

theorem applyMut_name (m : MutStep) (r : Record) : (applyMut m r).name = r.name := by
  cases m with
  | mAddPhone s =>
    show (orKeep (r.addPhone s) r).name = r.name
    unfold Record.addPhone orKeep
    cases phoneValidate s <;> rfl
  | mRemovePhone s => rfl
  | mEditPhone old n =>
    show (orKeep (r.editPhone old n) r).name = r.name
    unfold Record.editPhone orKeep
    cases editPhoneList r.phones old n <;> rfl
  | mAddBirthday s =>
    show (orKeep (r.addBirthday s) r).name = r.name
    unfold Record.addBirthday orKeep
    cases birthdayValidate s <;> rfl

/-! ## Claim theorems -/

/-- C1 counterexample: ten Arabic-Indic digits pass Phone validation —
Python `str.isdigit` accepts any Unicode digit character — refuting the
claim that validation succeeds only for texts composed of ASCII
digits. -/
theorem phone_ascii_counterexample :
    phoneValidate "٠١٢٣٤٥٦٧٨٩" = Except.ok "٠١٢٣٤٥٦٧٨٩" ∧
      "٠١٢٣٤٥٦٧٨٩".length = 10 ∧
      ¬(∀ c ∈ "٠١٢٣٤٥٦٧٨٩".data, '0' ≤ c ∧ c ≤ '9') := by
  refine ⟨rfl, rfl, ?_⟩
  decide

/-- C1 amended: Phone validation succeeds iff the text has length 10 and
every character is a digit in the Python `str.isdigit` sense (Unicode
decimal digits plus digit-valued characters such as superscripts — a
strict superset of the ASCII digits, so every text of 10 ASCII digits
still succeeds); on success the stored value is the input string itself
(no normalization), and every other input fails with `InvalidPhone`. -/
theorem phone_validation_amended (s : String) :
    (phoneValidate s = Except.ok s ↔
      (s.length = 10 ∧ ∀ c ∈ s.data, pyDigitChar c = true)) ∧
    (phoneValidate s = Except.error Err.invalidPhone ↔
      ¬(s.length = 10 ∧ ∀ c ∈ s.data, pyDigitChar c = true)) := by
  have hOK : phoneOK s = true ↔
      (s.length = 10 ∧ ∀ c ∈ s.data, pyDigitChar c = true) := by
    unfold phoneOK pyIsDigit
    rw [Bool.and_eq_true, Bool.and_eq_true]
    rw [show (s.length == 10) = true ↔ s.length = 10 from beq_iff_eq]
    constructor
    · intro h
      exact ⟨h.2, List.all_eq_true.mp h.1.2⟩
    · intro h
      refine ⟨⟨?_, List.all_eq_true.mpr h.2⟩, h.1⟩
      have hlen : s.data.length = 10 := h.1
      cases hdata : s.data with
      | nil => rw [hdata] at hlen; simp at hlen
      | cons c t => simp [hdata]
  unfold phoneValidate
  by_cases hok : phoneOK s
  · rw [if_pos hok]
    constructor
    · simp only [true_iff]
      exact hOK.mp hok
    · constructor
      · intro h
        exact absurd h (by simp)
      · intro h
        exact absurd (hOK.mp hok) h
  · rw [if_neg hok]
    constructor
    · constructor
      · intro h
        exact absurd h (by simp)
      · intro h
        exact absurd (hOK.mpr h) hok
    · simp only [true_iff]
      intro h
      exact hok (hOK.mpr h)

/-- C2 counterexample: the code accepts `"4.11.1975"` (one-digit day),
`"1٢.11.1975"` (day 12 with an Arabic-Indic second digit, via the `\\d`
of the day regex) and `"04.11.١٩٧٥"` (Arabic-Indic year digits, via
`\\d\\d\\d\\d`), none of which is in the literal ASCII two-digit
`DD.MM.YYYY` format of the spec, so "succeeds iff exactly `DD.MM.YYYY`"
is false as stated. -/
theorem birthday_format_counterexample :
    birthdayValidate "4.11.1975" = Except.ok ⟨1975, 11, 4⟩ ∧
      strictDDMMYYYY "4.11.1975" = false ∧
      birthdayValidate "1٢.11.1975" = Except.ok ⟨1975, 11, 12⟩ ∧
      birthdayValidate "04.11.١٩٧٥" = Except.ok ⟨1975, 11, 4⟩ ∧
      strictDDMMYYYY "04.11.١٩٧٥" = false := by
  refine ⟨rfl, rfl, rfl, rfl, rfl⟩

/-- C2 amended: Birthday validation succeeds iff the input is
day.month.year with dot separators where day and month have one or two
digits (two-digit values 01–31 resp. 01–12, one-digit 1–9; zero-padding
optional), the year has exactly four digits, the whole string is
consumed, and the triple denotes a real calendar date with year ≥ 1
(so `"29.02.2024"` succeeds and `"29.02.2023"` fails); the digits are
ASCII except at the `\d` spots of the underlying patterns — the second
day digit after a leading `1` or `2`, and all four year digits — which
accept any Unicode decimal digit at its decimal value; every other
input fails with `InvalidDateFormat`. -/
theorem birthday_validation_amended (s : String) (dt : PyDate) :
    (birthdayValidate s = Except.ok dt ↔ LenientDMY s dt) ∧
    (birthdayValidate s = Except.error Err.invalidDateFormat ↔
      ¬∃ d : PyDate, LenientDMY s d) := by
  unfold birthdayValidate
  cases hst : strptimeDMY s with
  | none =>
    constructor
    · constructor
      · intro h
        exact absurd h (by simp)
      · intro hL
        have := (strptimeDMY_iff s dt).mpr hL
        rw [hst] at this
        exact absurd this (by simp)
    · simp only [true_iff]
      intro hex
      obtain ⟨d, hd⟩ := hex
      have := (strptimeDMY_iff s d).mpr hd
      rw [hst] at this
      exact absurd this (by simp)
  | some d0 =>
    have hL0 : LenientDMY s d0 := (strptimeDMY_iff s d0).mp hst
    constructor
    · constructor
      · intro h
        have : d0 = dt := by simpa using h
        rw [← this]
        exact hL0
      · intro hL
        have := (strptimeDMY_iff s dt).mpr hL
        rw [hst] at this
        simp only [Option.some.injEq] at this
        rw [this]
    · constructor
      · intro h
        exact absurd h (by simp)
      · intro hex
        exact absurd ⟨d0, hL0⟩ hex

/-- C3: the 0–7-day window filter uses the unshifted projected date and
the weekend shift happens afterwards: a record whose projected birthday
is a Sunday exactly 7 days after `today` is included, and its returned
congratulation date is 8 days after `today`. -/
theorem sunday_seven_included (today bd : PyDate) (b : AddressBook) (k : String)
    (r : Record) (ht : today.Valid) (hb : bd.Valid) (hmem : (k, r) ∈ b)
    (hbd : r.birthday = some bd) (hw : weekdayOf (projected today bd) = 6)
    (hd : toRD (projected today bd) = toRD today + 7) :
    (r.name, formatYMD (addDays (projected today bd) 1)) ∈ getUpcomingBirthdays today b ∧
      toRD (addDays (projected today bd) 1) = toRD today + 8 := by
  obtain ⟨hc, hrd⟩ := congrat_sunday_seven today bd ht hb hw hd
  refine ⟨?_, hrd⟩
  rw [getUpcomingBirthdays_eq]
  exact List.mem_filterMap.mpr ⟨(k, r), hmem, by simp [entryOf, hbd, hc]⟩

/-- C3 witness: today = Sunday 2024-06-09, birthday 16.06.1990 projects
to Sunday 2024-06-16 (7 days out) and is returned as 2024-06-17. -/
theorem sunday_seven_included_witness :
    ("John", formatYMD (addDays (projected ⟨2024, 6, 9⟩ ⟨1990, 6, 16⟩) 1)) ∈
        getUpcomingBirthdays ⟨2024, 6, 9⟩
          [("John", ⟨"John", [], some ⟨1990, 6, 16⟩⟩)] ∧
      toRD (addDays (projected ⟨2024, 6, 9⟩ ⟨1990, 6, 16⟩) 1) = toRD ⟨2024, 6, 9⟩ + 8 :=
  sunday_seven_included ⟨2024, 6, 9⟩ ⟨1990, 6, 16⟩
    [("John", ⟨"John", [], some ⟨1990, 6, 16⟩⟩)] "John"
    ⟨"John", [], some ⟨1990, 6, 16⟩⟩ (by decide) (by decide) (by simp) rfl
    (by decide) (by decide)

/-- C4: for a Feb 29 birthday, projecting onto a non-leap current year
yields Feb 28; a passed projection re-projects onto next year with the
same Feb 28 fallback when that year is non-leap; and no returned
congratulation date is a Feb 29 of a non-leap year (the embedding is
total, so no crash). -/
theorem feb29_projection (today bd : PyDate) (h2 : bd.month = 2) (h9 : bd.day = 29) :
    (isLeap today.year = false → bdayThisYear today bd = ⟨today.year, 2, 28⟩) ∧
    (dateLt (bdayThisYear today bd) today = true → isLeap (today.year + 1) = false →
      projected today bd = ⟨today.year + 1, 2, 28⟩) ∧
    (∀ d : PyDate, congrat today bd = some d → d.month = 2 → d.day = 29 →
      isLeap d.year = true) := by
  refine ⟨?_, ?_, fun d hc hm hd => congrat_feb29_leap today bd d h2 h9 hc hm hd⟩
  · intro hL
    unfold bdayThisYear
    rw [replaceYear_feb29 bd today.year h2 h9, if_neg (by simp [hL])]
    rfl
  · intro hlt hL
    unfold projected
    rw [if_pos hlt, replaceYear_feb29 bd (today.year + 1) h2 h9, if_neg (by simp [hL])]
    rfl

/-- C4 witness: birthday 29.02.2020 with today = 2023-02-21 (non-leap
year) projects to 2023-02-28. -/
theorem feb29_projection_witness :
    bdayThisYear ⟨2023, 2, 21⟩ ⟨2020, 2, 29⟩ = ⟨2023, 2, 28⟩ :=
  (feb29_projection ⟨2023, 2, 21⟩ ⟨2020, 2, 29⟩ rfl rfl).1 (by decide)

/-- C5 counterexample: with no phone equal to `old_text` and an invalid
`new_text`, `edit_phone` fails with `PhoneNotFound` (the lookup precedes
validation), not `InvalidPhone` as the third clause of the claim demands. -/
theorem edit_phone_counterexample :
    Record.editPhone ⟨"John", ["1234567890"], none⟩ "9999999999" "abc" =
        Except.error Err.phoneNotFound ∧
      phoneValidate "abc" = Except.error Err.invalidPhone := by
  constructor
  · rfl
  · rfl

/-- C5 amended: when no phone equals `old_text`, `edit_phone` fails with
`PhoneNotFound` (even if `new_text` is also invalid, since the lookup
precedes validation); when a phone matches and `new_text` is invalid it
fails with `InvalidPhone` leaving the record unchanged; when a phone
matches and `new_text` is valid, the first match is replaced in place,
preserving its position and the phone count. -/
theorem edit_phone_amended (phones : List String) (old n : String) :
    ((∀ p ∈ phones, p ≠ old) →
      editPhoneList phones old n = Except.error Err.phoneNotFound) ∧
    (old ∈ phones → phoneOK n = false →
      editPhoneList phones old n = Except.error Err.invalidPhone) ∧
    (old ∈ phones → phoneOK n = true → ∃ l1 l2, phones = l1 ++ old :: l2 ∧ old ∉ l1 ∧
      editPhoneList phones old n = Except.ok (l1 ++ n :: l2) ∧
      (l1 ++ n :: l2).length = phones.length) := by
  refine ⟨editPhoneList_notFound old n phones,
    fun h hn => editPhoneList_invalid old n phones h hn, fun h hn => ?_⟩
  obtain ⟨l1, l2, h1, h2, h3⟩ := editPhoneList_found old n phones h hn
  exact ⟨l1, l2, h1, h2, h3, by rw [h1]; simp⟩

/-- C5 witness: a record holding `"1234567890"` edited with a
non-matching old number and invalid new number fails with
`PhoneNotFound`-before-validation behavior; here the matching case with
invalid new number yields `InvalidPhone`. -/
theorem edit_phone_amended_witness :
    editPhoneList ["1234567890"] "1234567890" "abc" =
      Except.error Err.invalidPhone :=
  (edit_phone_amended ["1234567890"] "1234567890" "abc").2.1 (by simp) (by decide)

/-- C6: an `add_record` then `find` with the name of the record returns exactly
that record (full overwrite, not a merge, when the name already
existed); `delete` then `find` returns absence; `delete` of an absent
name leaves the directory unchanged. -/
theorem directory_ops (b : AddressBook) (r : Record) (n : String) :
    find (addRecord b r) r.name = some r ∧
    find (delete b n) n = none ∧
    (hasKey b n = false → delete b n = b) :=
  ⟨find_addRecord b r, find_delete b n, delete_absent b n⟩

/-- C6 witness: deleting an absent name is a no-op on a concrete book. -/
theorem directory_ops_witness :
    delete [("John", Record.mkNew "John")] "Jane" = [("John", Record.mkNew "John")] :=
  (directory_ops [("John", Record.mkNew "John")] (Record.mkNew "John") "Jane").2.2
    (by decide)

/-- C7: the query `get_upcoming_birthdays` emits, in the directory insertion
(iteration) order and not sorted by date, one entry per passing record,
consisting of the name of the record and the weekend-adjusted date formatted
`YYYY.MM.DD`; its output is exactly the in-order `filterMap` of the
per-record computation, and its name column is a subsequence of the
name column of the directory. -/
theorem gub_order_and_format (today : PyDate) (b : AddressBook) :
    getUpcomingBirthdays today b = b.filterMap (entryOf today) ∧
    List.Sublist ((getUpcomingBirthdays today b).map Prod.fst)
      (b.map (fun kv => kv.2.name)) := by
  refine ⟨getUpcomingBirthdays_eq today b, ?_⟩
  rw [getUpcomingBirthdays_eq]
  induction b with
  | nil => simp
  | cons kv rest ih =>
    rw [List.filterMap_cons]
    cases he : entryOf today kv with
    | none =>
      simp only [List.map_cons]
      exact ih.cons kv.2.name
    | some e0 =>
      simp only [List.map_cons]
      rw [← entryOf_name today kv e0 he]
      exact ih.cons₂ e0.1

/-- C8: in every reachable directory state, every key equals the name of
the record it maps to; all directory operations and record mutations
preserve this because none of them changes the name of a record. -/
theorem key_invariant (b : AddressBook) (hb : Reachable b) :
    ∀ kv ∈ b, kv.1 = kv.2.name := by
  induction hb with
  | empty =>
    intro kv h
    cases h
  | addRec b0 r hr ih =>
    intro kv hmem
    unfold addRecord at hmem
    split at hmem
    · obtain ⟨kv0, hkv0, heq⟩ := List.mem_map.mp hmem
      by_cases hk : kv0.1 = r.name
      · rw [if_pos hk] at heq
        rw [← heq]
        exact hk
      · rw [if_neg hk] at heq
        rw [← heq]
        exact ih kv0 hkv0
    · cases List.mem_append.mp hmem with
      | inl h0 => exact ih kv h0
      | inr h1 =>
        have : kv = (r.name, r) := by simpa using h1
        rw [this]
  | del b0 n hr ih =>
    intro kv hmem
    unfold delete at hmem
    exact ih kv (List.mem_of_mem_filter hmem)
  | mutate b0 k m hr ih =>
    intro kv hmem
    unfold updateAt at hmem
    obtain ⟨kv0, hkv0, heq⟩ := List.mem_map.mp hmem
    by_cases hk : kv0.1 = k
    · rw [if_pos hk] at heq
      rw [← heq]
      show kv0.1 = (applyMut m kv0.2).name
      rw [applyMut_name]
      exact ih kv0 hkv0
    · rw [if_neg hk] at heq
      rw [← heq]
      exact ih kv0 hkv0

/-- C8 witness: the invariant instantiated on the book reached by adding
one record to the empty book. -/
theorem key_invariant_witness :
    ("John", Record.mkNew "John").1 = ("John", Record.mkNew "John").2.name :=
  key_invariant (addRecord [] (Record.mkNew "John"))
    (Reachable.addRec [] (Record.mkNew "John") Reachable.empty)
    ("John", Record.mkNew "John") (by decide)

/-- C9 (implicit): every congratulation date returned by
`get_upcoming_birthdays` falls on Monday–Friday and lies between 0 and
9 days after `today` inclusive. -/
theorem gub_weekday_window (today : PyDate) (b : AddressBook) (ht : today.Valid)
    (hb : ∀ kv ∈ b, ∀ bd : PyDate, kv.2.birthday = some bd → bd.Valid) :
    ∀ e ∈ getUpcomingBirthdays today b, ∃ d : PyDate, e.2 = formatYMD d ∧
      weekdayOf d < 5 ∧ toRD today ≤ toRD d ∧ toRD d ≤ toRD today + 9 := by
  intro e he
  rw [getUpcomingBirthdays_eq] at he
  obtain ⟨kv, hkv, hent⟩ := List.mem_filterMap.mp he
  unfold entryOf at hent
  cases hbd : kv.2.birthday with
  | none =>
    rw [hbd] at hent
    exact absurd hent (by simp)
  | some bd =>
    rw [hbd] at hent
    dsimp only at hent
    cases hcg : congrat today bd with
    | none =>
      rw [hcg] at hent
      exact absurd hent (by simp)
    | some d =>
      rw [hcg] at hent
      dsimp only at hent
      simp only [Option.some.injEq] at hent
      obtain ⟨hdv, hwk, hlo, hhi⟩ :=
        congrat_bounds today bd d ht (hb kv hkv bd hbd) hcg
      exact ⟨d, by rw [← hent], hwk, hlo, hhi⟩

/-- C9 witness: with today = 2024-06-10 and a birthday on 15.06, the
returned entry is the Monday 2024-06-17, a weekday 7 days out. -/
theorem gub_weekday_window_witness :
    ∃ d : PyDate, (("Jane", "2024.06.17") : String × String).2 = formatYMD d ∧
      weekdayOf d < 5 ∧ toRD ⟨2024, 6, 10⟩ ≤ toRD d ∧
      toRD d ≤ toRD ⟨2024, 6, 10⟩ + 9 :=
  gub_weekday_window ⟨2024, 6, 10⟩ [("Jane", ⟨"Jane", [], some ⟨1975, 6, 15⟩⟩)]
    (by decide)
    (by
      intro kv hkv bd hbd
      have hk : kv = ("Jane", ⟨"Jane", [], some ⟨1975, 6, 15⟩⟩) := by simpa using hkv
      rw [hk] at hbd
      have : some (⟨1975, 6, 15⟩ : PyDate) = some bd := hbd
      injection this with hbd2
      rw [← hbd2]
      decide)
    ("Jane", "2024.06.17") (by decide)

/-- C10: the read-only queries mutate nothing — in state-passing form,
`find`, `find_phone` and `get_upcoming_birthdays` return the directory
(resp. record) state exactly as given. -/
theorem queries_pure (b : AddressBook) (n : String) (r : Record) (s : String)
    (today : PyDate) :
    (findS b n).2 = b ∧ (findPhoneS r s).2 = r ∧
      (getUpcomingBirthdaysS today b).2 = b := by
  refine ⟨rfl, rfl, ?_⟩
  unfold getUpcomingBirthdaysS
  rw [gubGo_eq]

end HW8
